import Mathlib

/-!
Shallow embedding of `src/db/pack.py` (class `PackedDB`), the pack-multiplexing
read-only object database of this repository.

Modelling conventions:
* A sha is a list of byte values (`List Nat`).
* A `PackEntity` is the external single-archive lookup unit; its behaviour
  (`shaToIndex`, sizes, per-index info/stream) is carried as function fields,
  since `gitdb.pack.PackEntity` is an external collaborator of this module.
* The Python triple `[hits, entity, sha_to_index]` becomes `PackRecord`.
* `PackedDB` state is the mutable state of the Python object: the `_entities`
  list, the global `_hit_count` and the staleness marker `_st_mtime`.
* The filesystem (`os.stat` mtime of the root path and the `glob` result for
  `pack-*.pack`) is passed in explicitly as `FS`; `PackEntity(path)`
  construction is passed in as a function `mkEntity`.
* A raised `BadObject` is `none`, a raised `UnsupportedOperation` is the
  explicit error value, and the `assert del_index != -1` failing is `none`
  at the level of `update_pack_entity_cache`.
* Python's stable in-place `list.sort(key=lambda l: l[0], reverse=True)` is
  embedded as a stable insertion sort descending by the `hits` field.
-/

namespace GitDB

/-- A sha, as a sequence of byte values (20 bytes binary, 40 bytes hex form). -/
abbrev Sha := List Nat

/-- External `PackEntity` collaborator: path and size of the pack file, and the
index surface (`sha_to_index`, `size`, per-index info and stream). -/
structure PackEntity where
  path : String
  packSize : Nat
  shaToIndex : Sha → Option Nat
  indexSize : Nat
  infoAtIndex : Nat → Nat
  streamAtIndex : Nat → List Nat

/-- One entry of `self._entities`: the Python list `[hits, entity, sha_to_index]`. -/
structure PackRecord where
  hits : Nat
  entity : PackEntity
  locate : Sha → Option Nat

/-- The mutable state of a `PackedDB` instance: `_entities`, `_hit_count`,
`_st_mtime`. -/
structure PackedDB where
  entities : List PackRecord
  hitCount : Nat
  stMtime : Nat

/-- The filesystem as seen by `update_pack_entity_cache`: the root directory's
modification time from `os.stat`, and the `glob` result for `pack-*.pack`. -/
structure FS where
  mtime : Nat
  packFiles : List String

/-- `PackedDB._sort_interval = 500`. -/
def sortInterval : Nat := 500

/-- The state right after `__init__` and the start of `_set_cache_`:
an empty entity list, `_hit_count = 0`, `_st_mtime = 0`. -/
def mkPackedDB : PackedDB :=
  { entities := [], hitCount := 0, stMtime := 0 }

/-- Stable insertion (descending by `hits`) used by `sortEntities`. -/
def insertByHits (r : PackRecord) : List PackRecord → List PackRecord
  | [] => [r]
  | x :: xs => if x.hits ≤ r.hits then r :: x :: xs else x :: insertByHits r xs

/-- `_sort_entities`: stable sort of the entity list, descending by hit count
(Python `self._entities.sort(key=lambda l: l[0], reverse=True)`). -/
def sortEntities : List PackRecord → List PackRecord
  | [] => []
  | x :: xs => insertByHits x (sortEntities xs)

/-- ASCII code of the lowercase hex digit of a value below 16. -/
def hexDigitChar (v : Nat) : Nat :=
  if v < 10 then 48 + v else 87 + v

/-- Expand a binary sha to its lowercase hexadecimal form (two hex characters
per byte), as `binascii.b2a_hex` does. -/
def binToHex : List Nat → List Nat
  | [] => []
  | b :: bs => hexDigitChar (b / 16) :: hexDigitChar (b % 16) :: binToHex bs

/-- Value of an ASCII hex digit character. -/
def hexCharVal (c : Nat) : Nat :=
  if 48 ≤ c ∧ c ≤ 57 then c - 48
  else if 97 ≤ c ∧ c ≤ 102 then c - 87
  else if 65 ≤ c ∧ c ≤ 70 then c - 55
  else 0

/-- Compress a hexadecimal sha to binary, one byte per pair of hex characters,
as `binascii.a2b_hex` does. -/
def hexToBin : List Nat → List Nat
  | c1 :: c2 :: rest => (hexCharVal c1 * 16 + hexCharVal c2) :: hexToBin rest
  | _ => []

/-- Modelled from the spec: `gitdb.util.to_bin_sha` is imported by
`src/db/pack.py` but its module is not part of the given sources. Per the
spec, hash inputs "may arrive in either the compact binary form or an
expanded human-readable hexadecimal form, and must be normalized to binary
before any comparison or lookup": a 20-byte input is already binary and is
returned unchanged, anything else is the 40-character hex form and is
compressed to binary. -/
def to_bin_sha (s : Sha) : Sha :=
  if s.length = 20 then s else hexToBin s

/-- The scan loop of `_pack_info`: walk the records in order, query each
record's `locate` (`item[2](sha)`); on the first hit, bump that record's
`hits` (`item[0] += 1`) and return the new list together with the resolving
entity and the index. `none` means no record resolved the sha. -/
def scanEntities (sha : Sha) : List PackRecord → Option (List PackRecord × PackEntity × Nat)
  | [] => none
  | r :: rest =>
    match r.locate sha with
    | some idx => some ({ r with hits := r.hits + 1 } :: rest, r.entity, idx)
    | none =>
      match scanEntities sha rest with
      | some (rest', e, i) => some (r :: rest', e, i)
      | none => none

/-- The entity list as `_pack_info` sees it after its presort step:
`if self._hit_count % self._sort_interval == 0: self._sort_entities()`. -/
def presortEntities (db : PackedDB) : List PackRecord :=
  if db.hitCount % sortInterval = 0 then sortEntities db.entities else db.entities

/-- `PackedDB._pack_info(sha)`: presort when due, normalize the sha, scan the
records; on a hit, increment the record's and the global hit counters and
return `(entity, index)`; otherwise raise `BadObject` (the `none` result).
The returned state reflects all mutations performed, including the presort. -/
def _pack_info (db : PackedDB) (sha : Sha) : PackedDB × Option (PackEntity × Nat) :=
  match scanEntities (to_bin_sha sha) (presortEntities db) with
  | some (es', e, i) =>
    ({ db with entities := es', hitCount := db.hitCount + 1 }, some (e, i))
  | none => ({ db with entities := presortEntities db }, none)

/-- `PackedDB.has_object(sha)`: `_pack_info` succeeded, with `BadObject`
caught and turned into `False`. -/
def has_object (db : PackedDB) (sha : Sha) : PackedDB × Bool :=
  ((_pack_info db sha).1, (_pack_info db sha).2.isSome)

/-- `PackedDB.info(sha)`: `_pack_info`, then `entity.info_at_index(index)`;
`BadObject` propagates as `none`. -/
def info (db : PackedDB) (sha : Sha) : PackedDB × Option Nat :=
  ((_pack_info db sha).1, (_pack_info db sha).2.map (fun p => p.1.infoAtIndex p.2))

/-- `PackedDB.stream(sha)`: `_pack_info`, then `entity.stream_at_index(index)`;
`BadObject` propagates as `none`. -/
def stream (db : PackedDB) (sha : Sha) : PackedDB × Option (List Nat) :=
  ((_pack_info db sha).1, (_pack_info db sha).2.map (fun p => p.1.streamAtIndex p.2))

/-- The error raised by `PackedDB.store`. -/
inductive DBError where
  | unsupportedOperation
deriving DecidableEq

/-- `PackedDB.store(istream)`: unconditionally raises `UnsupportedOperation`
before touching any state. -/
def store (db : PackedDB) (istream : Nat) : PackedDB × DBError :=
  (db, DBError.unsupportedOperation)

/-- Python 2 `reduce(lambda x, y: x + y, sizes)`: no initial value, so the
empty list raises `TypeError` (the `none` result). -/
def pyReduceAdd : List Nat → Option Nat
  | [] => none
  | x :: xs => some (xs.foldl (· + ·) x)

/-- `PackedDB.size()`: `reduce` of the per-entity index sizes, with no
initial element. -/
def size (db : PackedDB) : Option Nat :=
  pyReduceAdd (db.entities.map (fun r => r.entity.indexSize))

/-- `PackedDB.entities()`. -/
def entities (db : PackedDB) : List PackEntity :=
  db.entities.map (fun r => r.entity)

/-- The inner search of the removal step of `update_pack_entity_cache`:
find the first record whose `item[1].pack().path()` equals `pack_file` and
delete it; `none` models the `assert del_index != -1` failing. -/
def removeFirstByPath (p : String) : List PackRecord → Option (List PackRecord)
  | [] => none
  | r :: rest =>
    if r.entity.path = p then some rest
    else
      match removeFirstByPath p rest with
      | some rest' => some (r :: rest')
      | none => none

/-- The removal loop of `update_pack_entity_cache`: one
`removeFirstByPath` per removed pack file. -/
def removeAllByPath : List String → List PackRecord → Option (List PackRecord)
  | [], es => some es
  | p :: ps, es =>
    match removeFirstByPath p es with
    | some es' => removeAllByPath ps es'
    | none => none

/-- `pack_files = set(glob.glob(os.path.join(self.root_path(), "pack-*.pack")))`:
the on-disk set, as a deduplicated list (Python iterates it as a set). -/
def packFilesOf (fs : FS) : List String :=
  fs.packFiles.dedup

/-- `our_pack_files = set(item[1].pack().path() for item in self._entities)`:
the registered set, as a deduplicated list. -/
def ourPackFilesOf (db : PackedDB) : List String :=
  (db.entities.map (fun r => r.entity.path)).dedup

/-- The record built for a newly appeared pack file:
`[entity.pack().size(), entity, entity.index().sha_to_index]` for
`entity = PackEntity(pack_file)` — the priority is seeded with the pack's
byte size. -/
def newRecordFor (mkEntity : String → PackEntity) (p : String) : PackRecord :=
  { hits := (mkEntity p).packSize, entity := mkEntity p,
    locate := (mkEntity p).shaToIndex }

/-- The records appended by the new-packs loop, one per path in
`pack_files - our_pack_files`. -/
def newRecordsOf (mkEntity : String → PackEntity) (fs : FS) (db : PackedDB) :
    List PackRecord :=
  ((packFilesOf fs).filter (fun p => decide (¬ p ∈ ourPackFilesOf db))).map
    (newRecordFor mkEntity)

/-- `our_pack_files - pack_files`: the registered paths no longer on disk. -/
def removedFilesOf (fs : FS) (db : PackedDB) : List String :=
  (ourPackFilesOf db).filter (fun p => decide (¬ p ∈ packFilesOf fs))

/-- `PackedDB.update_pack_entity_cache(force)`. The staleness gate returns
`False` without touching anything; otherwise the marker is updated to the
mtime just read, new records are appended (priority seeded with the pack
byte size), records of disappeared packs are removed (`none` models the
`assert del_index != -1` failing), the list is re-sorted unconditionally
and `True` is returned. Python iterates `set` objects, whose iteration
order is unspecified; the deduplicated list order here is one faithful
choice. -/
def update_pack_entity_cache (fs : FS) (mkEntity : String → PackEntity)
    (db : PackedDB) (force : Bool) : Option (Bool × PackedDB) :=
  if force = false ∧ fs.mtime ≤ db.stMtime then
    some (false, db)
  else
    match removeAllByPath (removedFilesOf fs db)
        (db.entities ++ newRecordsOf mkEntity fs db) with
    | some es2 =>
      some (true, { entities := sortEntities es2, hitCount := db.hitCount,
                    stMtime := fs.mtime })
    | none => none

/-! Concrete fixtures used by counterexamples and witnesses. -/

/-- A concrete 20-byte (binary form) sha. -/
def sha20 : Sha := [0, 0, 0, 0, 0, 0, 0, 0, 0, 0, 0, 0, 0, 0, 0, 0, 0, 0, 0, 0]

/-- A concrete 20-byte sha distinct from `sha20`. -/
def sha20b : Sha := [1, 0, 0, 0, 0, 0, 0, 0, 0, 0, 0, 0, 0, 0, 0, 0, 0, 0, 0, 0]

/-- A concrete pack entity resolving exactly `sha20`, at index 3. -/
def ent0 : PackEntity :=
  { path := "pack-0.pack", packSize := 12,
    shaToIndex := fun s => if s = sha20 then some 3 else none,
    indexSize := 4, infoAtIndex := fun i => i + 100, streamAtIndex := fun i => [i] }

/-- The registry record holding `ent0`. -/
def rec0 : PackRecord :=
  { hits := 12, entity := ent0, locate := ent0.shaToIndex }

/-- A concrete database holding exactly `rec0`. -/
def dbOne : PackedDB :=
  { entities := [rec0], hitCount := 0, stMtime := 0 }

/-- A trivial pack entity resolving nothing. -/
def noEntity : PackEntity :=
  { path := "", packSize := 0, shaToIndex := fun s => none, indexSize := 0,
    infoAtIndex := fun i => 0, streamAtIndex := fun i => [] }

/-- Entity constructor fixture whose backing path is the path it was opened
with, as `PackEntity(pack_file)` guarantees. -/
def mkPathEntity (p : String) : PackEntity :=
  { path := p, packSize := 0, shaToIndex := fun s => none, indexSize := 0,
    infoAtIndex := fun i => 0, streamAtIndex := fun i => [] }

/-- A concrete record whose backing pack file is `pack-a.pack`. -/
def recP : PackRecord :=
  { hits := 2, entity := mkPathEntity "pack-a.pack",
    locate := (mkPathEntity "pack-a.pack").shaToIndex }

/-! Shared lemmas about sorting and the scan loop. -/

theorem insertByHits_perm (r : PackRecord) (l : List PackRecord) :
    (insertByHits r l).Perm (r :: l) := by
  induction l with
  | nil => exact List.Perm.refl _
  | cons x xs ih =>
    unfold insertByHits
    by_cases hx : x.hits ≤ r.hits
    · rw [if_pos hx]
    · rw [if_neg hx]
      exact (ih.cons x).trans (List.Perm.swap r x xs)

theorem sortEntities_perm (l : List PackRecord) : (sortEntities l).Perm l := by
  induction l with
  | nil => exact List.Perm.refl _
  | cons x xs ih => exact (insertByHits_perm x (sortEntities xs)).trans (ih.cons x)

theorem presortEntities_perm (db : PackedDB) :
    (presortEntities db).Perm db.entities := by
  unfold presortEntities
  split
  · exact sortEntities_perm db.entities
  · exact List.Perm.refl _

theorem scanEntities_eq_none_iff (sha : Sha) (es : List PackRecord) :
    scanEntities sha es = none ↔ ∀ r ∈ es, r.locate sha = none := by
  induction es with
  | nil => simp [scanEntities]
  | cons x xs ih =>
    cases hx : x.locate sha with
    | some idx => simp [scanEntities, hx]
    | none =>
      cases hs : scanEntities sha xs with
      | some v =>
        obtain ⟨a, b, c⟩ := v
        simp [scanEntities, hx, hs, ← ih]
      | none =>
        simp [scanEntities, hx, hs, ← ih]

theorem scanEntities_found (sha : Sha) (l₁ l₂ : List PackRecord)
    (r : PackRecord) (idx : Nat)
    (hmiss : ∀ r' ∈ l₁, r'.locate sha = none) (hhit : r.locate sha = some idx) :
    scanEntities sha (l₁ ++ r :: l₂) =
      some (l₁ ++ { r with hits := r.hits + 1 } :: l₂, r.entity, idx) := by
  induction l₁ with
  | nil => simp [scanEntities, hhit]
  | cons x xs ih =>
    have hx : x.locate sha = none := hmiss x (List.mem_cons_self x xs)
    have ih' := ih (fun r' hr' => hmiss r' (List.mem_cons_of_mem x hr'))
    simp [scanEntities, hx, ih']

theorem scanEntities_map_path (sha : Sha) (es es' : List PackRecord)
    (e : PackEntity) (i : Nat) (h : scanEntities sha es = some (es', e, i)) :
    es'.map (fun r => r.entity.path) = es.map (fun r => r.entity.path) := by
  induction es generalizing es' with
  | nil => simp [scanEntities] at h
  | cons x xs ih =>
    unfold scanEntities at h
    cases hx : x.locate sha with
    | some idx =>
      simp only [hx] at h
      injection h with h1
      cases h1
      simp
    | none =>
      simp only [hx] at h
      cases hs : scanEntities sha xs with
      | none => simp [hs] at h
      | some v =>
        obtain ⟨a, b, c⟩ := v
        simp only [hs] at h
        injection h with h1
        cases h1
        simp [ih a hs]

/-! Shared lemmas about the removal step. -/

theorem removeFirstByPath_isSome (p : String) (es : List PackRecord)
    (h : ∃ r ∈ es, r.entity.path = p) :
    ∃ es', removeFirstByPath p es = some es' := by
  induction es with
  | nil => simp at h
  | cons x xs ih =>
    unfold removeFirstByPath
    by_cases hx : x.entity.path = p
    · exact ⟨xs, by rw [if_pos hx]⟩
    · rw [if_neg hx]
      obtain ⟨r, hr, hrp⟩ := h
      rcases List.mem_cons.mp hr with rfl | hr'
      · exact absurd hrp hx
      · obtain ⟨es', heq⟩ := ih ⟨r, hr', hrp⟩
        exact ⟨x :: es', by rw [heq]⟩

theorem removeFirstByPath_sublist (p : String) (es es' : List PackRecord)
    (h : removeFirstByPath p es = some es') : es'.Sublist es := by
  induction es generalizing es' with
  | nil => simp [removeFirstByPath] at h
  | cons x xs ih =>
    unfold removeFirstByPath at h
    by_cases hx : x.entity.path = p
    · rw [if_pos hx] at h
      injection h with h1
      cases h1
      exact List.sublist_cons_self x xs
    · rw [if_neg hx] at h
      cases hrec : removeFirstByPath p xs with
      | none => rw [hrec] at h; exact absurd h (by simp)
      | some rest' =>
        rw [hrec] at h
        injection h with h1
        cases h1
        exact (ih rest' hrec).cons₂ x

theorem removeFirstByPath_mem (p : String) (es es' : List PackRecord) (r : PackRecord)
    (hr : r ∈ es) (hne : r.entity.path ≠ p)
    (h : removeFirstByPath p es = some es') : r ∈ es' := by
  induction es generalizing es' with
  | nil => cases hr
  | cons x xs ih =>
    unfold removeFirstByPath at h
    by_cases hx : x.entity.path = p
    · rw [if_pos hx] at h
      injection h with h1
      cases h1
      rcases List.mem_cons.mp hr with rfl | hr'
      · exact absurd hx hne
      · exact hr'
    · rw [if_neg hx] at h
      cases hrec : removeFirstByPath p xs with
      | none => rw [hrec] at h; exact absurd h (by simp)
      | some rest' =>
        rw [hrec] at h
        injection h with h1
        cases h1
        rcases List.mem_cons.mp hr with rfl | hr'
        · exact List.mem_cons_self _ _
        · exact List.mem_cons_of_mem x (ih rest' hr' hrec)

theorem removeAllByPath_isSome (ps : List String) (es : List PackRecord)
    (hnd : ps.Nodup) (hall : ∀ p ∈ ps, ∃ r ∈ es, r.entity.path = p) :
    ∃ es', removeAllByPath ps es = some es' := by
  induction ps generalizing es with
  | nil => exact ⟨es, rfl⟩
  | cons p ps ih =>
    obtain ⟨es1, h1⟩ := removeFirstByPath_isSome p es (hall p (List.mem_cons_self p ps))
    have hall' : ∀ q ∈ ps, ∃ r ∈ es1, r.entity.path = q := by
      intro q hq
      obtain ⟨r, hr, hrq⟩ := hall q (List.mem_cons_of_mem p hq)
      have hqp : q ≠ p := by
        rintro rfl
        exact (List.nodup_cons.mp hnd).1 hq
      exact ⟨r, removeFirstByPath_mem p es es1 r hr (by rw [hrq]; exact hqp) h1, hrq⟩
    obtain ⟨es', h'⟩ := ih es1 (List.nodup_cons.mp hnd).2 hall'
    refine ⟨es', ?_⟩
    unfold removeAllByPath
    rw [h1]
    exact h'

theorem removeAllByPath_sublist (ps : List String) (es es' : List PackRecord)
    (h : removeAllByPath ps es = some es') : es'.Sublist es := by
  induction ps generalizing es with
  | nil =>
    injection h with h1
    cases h1
    exact List.Sublist.refl es'
  | cons p ps ih =>
    unfold removeAllByPath at h
    cases hrec : removeFirstByPath p es with
    | none => rw [hrec] at h; exact absurd h (by simp)
    | some es1 =>
      rw [hrec] at h
      exact (ih es1 h).trans (removeFirstByPath_sublist p es es1 hrec)

theorem removeAllByPath_mem (ps : List String) (es es' : List PackRecord) (r : PackRecord)
    (hr : r ∈ es) (hnp : ¬ r.entity.path ∈ ps)
    (h : removeAllByPath ps es = some es') : r ∈ es' := by
  induction ps generalizing es with
  | nil =>
    injection h with h1
    cases h1
    exact hr
  | cons p ps ih =>
    unfold removeAllByPath at h
    cases hrec : removeFirstByPath p es with
    | none => rw [hrec] at h; exact absurd h (by simp)
    | some es1 =>
      rw [hrec] at h
      have hne : r.entity.path ≠ p := fun he => hnp (he ▸ List.mem_cons_self p ps)
      exact ih es1 (removeFirstByPath_mem p es es1 r hr hne hrec)
        (fun hm => hnp (List.mem_cons_of_mem p hm)) h

/-! Theorems. -/

/-- C2: the claim (and the spec) say `size` "returns 0 (rather than failing)
when the registry is empty", but on an empty registry the Python 2 `reduce`
with no initial value raises `TypeError`: the code fails instead of
returning 0. This theorem evaluates the embedded `size` at the failing
input, the freshly initialized empty database. -/
theorem size_of_empty_registry_fails : size mkPackedDB = none := rfl

/-- C6: `store` always fails with `UnsupportedOperation` and leaves the
whole database state unchanged, for every state and every input object. -/
theorem store_always_unsupported (db : PackedDB) (istream : Nat) :
    store db istream = (db, DBError.unsupportedOperation) := rfl

/-- C1 counterexample: a forced reconciliation over an empty directory with
an empty registry performs no insertion and no removal, yet returns `true`,
not `false` as the claim states. -/
theorem update_returns_true_without_change :
    update_pack_entity_cache ⟨5, []⟩ (fun p => noEntity) mkPackedDB true =
      some (true, { entities := [], hitCount := 0, stMtime := 5 }) ∧
    ({ entities := [], hitCount := 0, stMtime := 5 } : PackedDB).entities =
      mkPackedDB.entities := by
  exact ⟨rfl, rfl⟩

/-- C1 (amended): a reconciliation call returns `false` exactly when the
staleness gate skips it (`force` is false and the directory mtime is ≤ the
stored marker); every call that passes the gate returns `true`, whether or
not any insertion or removal occurred. -/
theorem update_bool_iff_gate (fs : FS) (mk : String → PackEntity) (db : PackedDB)
    (force : Bool) (b : Bool) (db' : PackedDB)
    (h : update_pack_entity_cache fs mk db force = some (b, db')) :
    b = false ↔ (force = false ∧ fs.mtime ≤ db.stMtime) := by
  unfold update_pack_entity_cache at h
  by_cases hg : force = false ∧ fs.mtime ≤ db.stMtime
  · rw [if_pos hg] at h
    injection h with h1
    cases h1
    simp [hg]
  · rw [if_neg hg] at h
    rcases hrem : removeAllByPath (removedFilesOf fs db)
        (db.entities ++ newRecordsOf mk fs db) with _ | es2 <;> rw [hrem] at h
    · exact absurd h (by simp)
    · injection h with h1
      cases h1
      simp [hg]

/-- C1 witness: the amended theorem applied at a gate-skipped concrete call. -/
theorem update_bool_iff_gate_witness :
    (false = false) ↔ ((false = false) ∧ (⟨0, []⟩ : FS).mtime ≤ mkPackedDB.stMtime) :=
  update_bool_iff_gate ⟨0, []⟩ (fun p => noEntity) mkPackedDB false false mkPackedDB rfl

/-- C5: when `force` is false and the directory mtime is ≤ the stored
marker, reconciliation returns `false` immediately with the state untouched;
consequently a second `refresh(force=false)` right after any first one (no
filesystem change in between) returns `false` and changes nothing. -/
theorem refresh_staleness_gate (fs : FS) (mk : String → PackEntity) (db : PackedDB) :
    (fs.mtime ≤ db.stMtime →
      update_pack_entity_cache fs mk db false = some (false, db)) ∧
    (∀ b db', update_pack_entity_cache fs mk db false = some (b, db') →
      update_pack_entity_cache fs mk db' false = some (false, db')) := by
  constructor
  · intro hle
    unfold update_pack_entity_cache
    rw [if_pos ⟨rfl, hle⟩]
  · intro b db' h
    by_cases hle : fs.mtime ≤ db.stMtime
    · have h0 : update_pack_entity_cache fs mk db false = some (false, db) := by
        unfold update_pack_entity_cache
        rw [if_pos ⟨rfl, hle⟩]
      rw [h0] at h
      injection h with h1
      cases h1
      exact h0
    · unfold update_pack_entity_cache at h
      rw [if_neg (by simp [hle])] at h
      rcases hrem : removeAllByPath (removedFilesOf fs db)
          (db.entities ++ newRecordsOf mk fs db) with _ | es2 <;> rw [hrem] at h
      · exact absurd h (by simp)
      · injection h with h1
        cases h1
        unfold update_pack_entity_cache
        rw [if_pos ⟨rfl, Nat.le_refl fs.mtime⟩]

/-- C3: when the entity list, as `_pack_info` scans it (after the presort
step due this call), splits as `l₁ ++ r :: l₂` with every record of `l₁`
missing the normalized sha and `r` resolving it at `idx`, the lookup returns
exactly `(r.entity, idx)`, bumps exactly `r`'s hit count by one, and bumps
the global hit counter by one. -/
theorem pack_info_first_hit (db : PackedDB) (sha : Sha) (l₁ l₂ : List PackRecord)
    (r : PackRecord) (idx : Nat)
    (hsplit : presortEntities db = l₁ ++ r :: l₂)
    (hmiss : ∀ r' ∈ l₁, r'.locate (to_bin_sha sha) = none)
    (hhit : r.locate (to_bin_sha sha) = some idx) :
    _pack_info db sha =
      ({ entities := l₁ ++ { r with hits := r.hits + 1 } :: l₂,
         hitCount := db.hitCount + 1, stMtime := db.stMtime },
       some (r.entity, idx)) := by
  unfold _pack_info
  rw [hsplit, scanEntities_found (to_bin_sha sha) l₁ l₂ r idx hmiss hhit]

/-- C3 witness: the theorem applied to a one-record database whose record
resolves `sha20` at index 3. -/
theorem pack_info_first_hit_witness :
    _pack_info dbOne sha20 =
      ({ entities := [] ++ { rec0 with hits := rec0.hits + 1 } :: [],
         hitCount := dbOne.hitCount + 1, stMtime := dbOne.stMtime },
       some (rec0.entity, 3)) :=
  pack_info_first_hit dbOne sha20 [] [] rec0 3 rfl
    (fun r' hr' => absurd hr' (List.not_mem_nil r')) rfl

/-- C4: `_pack_info` signals `BadObject` (the `none` result) exactly when no
registered record resolves the normalized sha; in that case the global hit
counter is unchanged, the records (with their hit counts) are unchanged up
to reordering, and the staleness marker is unchanged; `has_object` returns
`false` exactly in this case and `true` otherwise. -/
theorem pack_info_miss_and_has_object (db : PackedDB) (sha : Sha) :
    ((_pack_info db sha).2 = none ↔
      ∀ r ∈ db.entities, r.locate (to_bin_sha sha) = none) ∧
    ((_pack_info db sha).2 = none →
      (_pack_info db sha).1.hitCount = db.hitCount ∧
      (_pack_info db sha).1.entities.Perm db.entities ∧
      (_pack_info db sha).1.stMtime = db.stMtime) ∧
    ((has_object db sha).2 = false ↔
      ∀ r ∈ db.entities, r.locate (to_bin_sha sha) = none) := by
  have hperm := presortEntities_perm db
  rcases hs : scanEntities (to_bin_sha sha) (presortEntities db) with _ | ⟨es', e, i⟩
  · have hall : ∀ r ∈ db.entities, r.locate (to_bin_sha sha) = none := by
      intro r hr
      exact (scanEntities_eq_none_iff _ _).mp hs r (hperm.mem_iff.mpr hr)
    have hpi : _pack_info db sha = ({ db with entities := presortEntities db }, none) := by
      unfold _pack_info
      rw [hs]
    refine ⟨by rw [hpi]; exact iff_of_true rfl hall,
      fun _ => ⟨by simp [hpi], by simp [hpi, hperm], by simp [hpi]⟩, ?_⟩
    rw [has_object, hpi]
    exact iff_of_true rfl hall
  · have hpi : _pack_info db sha =
        ({ db with entities := es', hitCount := db.hitCount + 1 }, some (e, i)) := by
      unfold _pack_info
      rw [hs]
    have hne : ¬ ∀ r ∈ db.entities, r.locate (to_bin_sha sha) = none := by
      intro hall
      rw [(scanEntities_eq_none_iff (to_bin_sha sha) (presortEntities db)).mpr
        (fun r hr => hall r (hperm.mem_iff.mp hr))] at hs
      exact absurd hs (by simp)
    refine ⟨by simp [hpi, hne], by simp [hpi], ?_⟩
    simp [has_object, hpi, hne]

/-- C4 witness: the theorem applied to a one-record database and a sha it
does not hold. -/
theorem pack_info_miss_witness :
    (_pack_info dbOne sha20b).2 = none ∧
    (_pack_info dbOne sha20b).1.hitCount = dbOne.hitCount ∧
    (has_object dbOne sha20b).2 = false := by
  have h := pack_info_miss_and_has_object dbOne sha20b
  have hall : ∀ r ∈ dbOne.entities, r.locate (to_bin_sha sha20b) = none := by decide
  exact ⟨h.1.mpr hall, (h.2.1 (h.1.mpr hall)).1, h.2.2.mpr hall⟩

/-- C5 witness: the gate part applied at a concrete skipped call. -/
theorem refresh_staleness_gate_witness :
    update_pack_entity_cache ⟨0, []⟩ (fun p => noEntity) mkPackedDB false =
      some (false, mkPackedDB) :=
  (refresh_staleness_gate ⟨0, []⟩ (fun p => noEntity) mkPackedDB).1 (Nat.le_refl 0)

/-- C7: the removal step's `assert del_index != -1` never fails: every
reconciliation call produces a result (the `none` modelling the assertion
failure is unreachable), because every path in the removed set comes from a
record of the same registry, derived moments earlier in the same call. -/
theorem update_removal_assert_never_fails (fs : FS) (mk : String → PackEntity)
    (db : PackedDB) (force : Bool) :
    (update_pack_entity_cache fs mk db force).isSome = true := by
  unfold update_pack_entity_cache
  by_cases hg : force = false ∧ fs.mtime ≤ db.stMtime
  · rw [if_pos hg]
    rfl
  · rw [if_neg hg]
    have hnd : (removedFilesOf fs db).Nodup := by
      unfold removedFilesOf ourPackFilesOf
      exact (List.nodup_dedup _).filter _
    have hall : ∀ p ∈ removedFilesOf fs db,
        ∃ r ∈ db.entities ++ newRecordsOf mk fs db, r.entity.path = p := by
      intro p hp
      have hp1 : p ∈ ourPackFilesOf db := List.mem_of_mem_filter hp
      have hp2 : p ∈ db.entities.map (fun r => r.entity.path) := List.mem_dedup.mp hp1
      obtain ⟨r, hr, hrp⟩ := List.mem_map.mp hp2
      exact ⟨r, List.mem_append_left _ hr, hrp⟩
    obtain ⟨es', h'⟩ := removeAllByPath_isSome _ _ hnd hall
    rw [h']
    rfl

/-- The registry invariant of C8: no two records reference the same backing
archive path. -/
def pathsNodup (db : PackedDB) : Prop :=
  (db.entities.map (fun r => r.entity.path)).Nodup

/-- The paths of the records of a database are permuted, never changed, by a
lookup (`_pack_info` only presorts and bumps a hit counter). -/
theorem pack_info_paths_perm (db : PackedDB) (sha : Sha) :
    ((_pack_info db sha).1.entities.map (fun r => r.entity.path)).Perm
      (db.entities.map (fun r => r.entity.path)) := by
  rcases hs : scanEntities (to_bin_sha sha) (presortEntities db) with _ | ⟨es', e, i⟩
  · have hpi : (_pack_info db sha).1.entities = presortEntities db := by
      unfold _pack_info
      rw [hs]
    rw [hpi]
    exact (presortEntities_perm db).map _
  · have hpi : (_pack_info db sha).1.entities = es' := by
      unfold _pack_info
      rw [hs]
    rw [hpi, scanEntities_map_path _ _ _ _ _ hs]
    exact (presortEntities_perm db).map _

/-- C8: the path-uniqueness invariant holds for the freshly initialized
registry and is preserved by every operation: reconciliation (which only
inserts records for on-disk paths not already registered), lookup,
existence check, and store. `hmk` is the external `PackEntity` contract
that an entity opened on a path reports that path as its backing path. -/
theorem path_uniqueness_invariant (fs : FS) (mk : String → PackEntity)
    (db : PackedDB) (force : Bool) (sha : Sha) (istream : Nat)
    (hmk : ∀ p : String, (mk p).path = p) (hdb : pathsNodup db) :
    pathsNodup mkPackedDB ∧
    (∀ b db', update_pack_entity_cache fs mk db force = some (b, db') →
      pathsNodup db') ∧
    pathsNodup (_pack_info db sha).1 ∧
    pathsNodup (has_object db sha).1 ∧
    pathsNodup (store db istream).1 := by
  have hlookup : pathsNodup (_pack_info db sha).1 :=
    ((pack_info_paths_perm db sha).nodup_iff).mpr hdb
  refine ⟨by simp [pathsNodup, mkPackedDB], ?_, hlookup, hlookup, hdb⟩
  intro b db' h
  unfold update_pack_entity_cache at h
  by_cases hg : force = false ∧ fs.mtime ≤ db.stMtime
  · rw [if_pos hg] at h
    injection h with h1
    cases h1
    exact hdb
  · rw [if_neg hg] at h
    cases hrem : removeAllByPath (removedFilesOf fs db)
        (db.entities ++ newRecordsOf mk fs db) with
    | none => rw [hrem] at h; exact absurd h (by simp)
    | some es2 =>
      rw [hrem] at h
      injection h with h1
      cases h1
      have hmapgen : ∀ l : List String,
          (l.map (newRecordFor mk)).map (fun r => r.entity.path) = l := by
        intro l
        induction l with
        | nil => rfl
        | cons q qs ih => simp [newRecordFor, ih, hmk q]
      have hmapnew : (newRecordsOf mk fs db).map (fun r => r.entity.path) =
          (packFilesOf fs).filter (fun p => decide (¬ p ∈ ourPackFilesOf db)) := by
        unfold newRecordsOf
        exact hmapgen _
      have hnew : (((packFilesOf fs).filter
          (fun p => decide (¬ p ∈ ourPackFilesOf db)))).Nodup :=
        (List.nodup_dedup fs.packFiles).filter _
      have hdisj : ∀ p, p ∈ db.entities.map (fun r => r.entity.path) →
          p ∈ (packFilesOf fs).filter (fun p => decide (¬ p ∈ ourPackFilesOf db)) →
          False := by
        intro p hp1 hp2
        have := List.of_mem_filter hp2
        simp only [decide_eq_true_eq] at this
        exact this (List.mem_dedup.mpr hp1)
      have h1 : ((db.entities ++ newRecordsOf mk fs db).map
          (fun r => r.entity.path)).Nodup := by
        rw [List.map_append, hmapnew]
        exact List.Nodup.append hdb hnew hdisj
      have h2 : (es2.map (fun r => r.entity.path)).Nodup :=
        h1.sublist ((removeAllByPath_sublist _ _ _ hrem).map _)
      exact (((sortEntities_perm es2).map (fun r => r.entity.path)).nodup_iff).mpr h2

/-- C8 witness: the invariant theorem applied at a concrete database and
filesystem. -/
theorem path_uniqueness_invariant_witness :
    pathsNodup mkPackedDB ∧
    (∀ b db', update_pack_entity_cache ⟨1, []⟩ mkPathEntity mkPackedDB false =
      some (b, db') → pathsNodup db') ∧
    pathsNodup (_pack_info mkPackedDB sha20).1 ∧
    pathsNodup (has_object mkPackedDB sha20).1 ∧
    pathsNodup (store mkPackedDB 0).1 :=
  path_uniqueness_invariant ⟨1, []⟩ mkPathEntity mkPackedDB false sha20 0
    (fun p => rfl) (by simp [pathsNodup, mkPackedDB])

/-- C10: a record registered before reconciliation whose backing file is
still on disk survives reconciliation intact: the very same record (same
entity handle, same locate capability, same hit count) is a member of the
resulting list; only its position may differ, via the final re-sort. -/
theorem update_keeps_surviving_records (fs : FS) (mk : String → PackEntity)
    (db : PackedDB) (force : Bool) (b : Bool) (db' : PackedDB) (r : PackRecord)
    (hup : update_pack_entity_cache fs mk db force = some (b, db'))
    (hr : r ∈ db.entities) (hdisk : r.entity.path ∈ fs.packFiles) :
    r ∈ db'.entities := by
  unfold update_pack_entity_cache at hup
  by_cases hg : force = false ∧ fs.mtime ≤ db.stMtime
  · rw [if_pos hg] at hup
    injection hup with h1
    cases h1
    exact hr
  · rw [if_neg hg] at hup
    cases hrem : removeAllByPath (removedFilesOf fs db)
        (db.entities ++ newRecordsOf mk fs db) with
    | none => rw [hrem] at hup; exact absurd hup (by simp)
    | some es2 =>
      rw [hrem] at hup
      injection hup with h1
      cases h1
      have hres : r ∈ es2 := by
        apply removeAllByPath_mem _ _ _ r (List.mem_append_left _ hr) ?_ hrem
        intro hmem
        have hcond := List.of_mem_filter hmem
        simp only [decide_eq_true_eq] at hcond
        exact hcond (List.mem_dedup.mpr hdisk)
      exact ((sortEntities_perm es2).mem_iff).mpr hres

/-- C10 witness: a one-record database whose pack file is still on disk,
under a forced reconciliation. -/
theorem update_keeps_surviving_records_witness :
    recP ∈ ({ entities := [recP], hitCount := 0, stMtime := 7 } : PackedDB).entities :=
  update_keeps_surviving_records ⟨7, ["pack-a.pack"]⟩ mkPathEntity
    ⟨[recP], 0, 0⟩ true true ⟨[recP], 0, 7⟩ recP rfl
    (List.mem_singleton.mpr rfl) (List.mem_singleton.mpr rfl)

/-! Lemmas about hex/binary sha normalization, for C9. -/

theorem hexCharVal_hexDigitChar (v : Nat) (h : v < 16) :
    hexCharVal (hexDigitChar v) = v := by
  unfold hexCharVal hexDigitChar
  by_cases h10 : v < 10
  · rw [if_pos h10, if_pos ⟨by omega, by omega⟩]
    omega
  · rw [if_neg h10, if_neg (by omega), if_pos ⟨by omega, by omega⟩]
    omega

theorem hexToBin_binToHex (b : List Nat) (h : ∀ x ∈ b, x < 256) :
    hexToBin (binToHex b) = b := by
  induction b with
  | nil => rfl
  | cons x xs ih =>
    have hx : x < 256 := h x (List.mem_cons_self x xs)
    show hexToBin (hexDigitChar (x / 16) :: hexDigitChar (x % 16) :: binToHex xs) = x :: xs
    unfold hexToBin
    rw [hexCharVal_hexDigitChar _ (by omega), hexCharVal_hexDigitChar _ (by omega),
      ih (fun y hy => h y (List.mem_cons_of_mem x hy))]
    congr 1
    omega

theorem binToHex_length (b : List Nat) : (binToHex b).length = 2 * b.length := by
  induction b with
  | nil => rfl
  | cons x xs ih =>
    show (binToHex xs).length + 1 + 1 = 2 * (xs.length + 1)
    omega

theorem to_bin_sha_binToHex (b : List Nat) (hlen : b.length = 20)
    (hbytes : ∀ x ∈ b, x < 256) : to_bin_sha (binToHex b) = to_bin_sha b := by
  unfold to_bin_sha
  rw [if_pos hlen, if_neg (by rw [binToHex_length, hlen]; omega)]
  exact hexToBin_binToHex b hbytes

/-- Helper: every lookup depends on the sha only through `to_bin_sha`. -/
theorem pack_info_respects_to_bin_sha (db : PackedDB) (s₁ s₂ : Sha)
    (h : to_bin_sha s₁ = to_bin_sha s₂) : _pack_info db s₁ = _pack_info db s₂ := by
  unfold _pack_info
  rw [h]

/-- C9: a hash given in expanded hexadecimal form and the same hash in
compact binary form produce identical lookups — `_pack_info`, and with it
`has_object`, `info` and `stream` — because the input is normalized to
binary before any comparison. `b` is the binary form (20 bytes, each below
256), `binToHex b` the corresponding 40-character hexadecimal form. -/
theorem hex_and_bin_lookup_agree (db : PackedDB) (b : Sha)
    (hlen : b.length = 20) (hbytes : ∀ x ∈ b, x < 256) :
    _pack_info db (binToHex b) = _pack_info db b ∧
    has_object db (binToHex b) = has_object db b ∧
    info db (binToHex b) = info db b ∧
    stream db (binToHex b) = stream db b := by
  have h := pack_info_respects_to_bin_sha db (binToHex b) b
    (to_bin_sha_binToHex b hlen hbytes)
  exact ⟨h, by unfold has_object; rw [h], by unfold info; rw [h],
    by unfold stream; rw [h]⟩

/-- C9 witness: the theorem applied to a concrete database and the binary
sha `sha20` it holds. -/
theorem hex_and_bin_lookup_agree_witness :
    _pack_info dbOne (binToHex sha20) = _pack_info dbOne sha20 ∧
    has_object dbOne (binToHex sha20) = has_object dbOne sha20 ∧
    info dbOne (binToHex sha20) = info dbOne sha20 ∧
    stream dbOne (binToHex sha20) = stream dbOne sha20 :=
  hex_and_bin_lookup_agree dbOne sha20 (by decide) (by decide)

end GitDB
